import Mathlib

/-!
Verification of the Report-Miner core components against their
natural-language specification.

Part I embeds `src/reportminer/models.py` (the `TestStatus` enumeration and
the `TestResult` record) and `src/reportminer/compare.py` (`compare_reports`).
Part II embeds the log-annotator state machine of
`src/reportminer/tui/app.py` (`TestDetailPanel`).

Modelling conventions:
* Python strings are Lean `String`s (sequences of Unicode code points, as in
  CPython); `str.lower` is modelled by `Char.toLower`, which agrees with
  CPython on ASCII text — every concrete input used below is ASCII.
* Python dicts keyed by strings are modelled as association lists with
  last-wins insertion (`dictLookup`) or in-place overwrite (`dictInsert`),
  matching CPython dict semantics for the operations the code performs.
* A raised exception is modelled by `Option.none`; code that cannot raise is
  total.
-/

namespace ReportMiner

/-! ## Data model and operations (the embedding) -/

/-- The `TestStatus` enum of `models.py`. -/
inductive TestStatus where
  | passed
  | failed
  | skipped
  | error
  | xfailed
  | xpassed
  | rerun
  deriving DecidableEq, Repr

/-- The `TestStatus.value`: the string payload of each enum member. -/
def TestStatus.value : TestStatus → String
  | .passed => "passed"
  | .failed => "failed"
  | .skipped => "skipped"
  | .error => "error"
  | .xfailed => "xfailed"
  | .xpassed => "xpassed"
  | .rerun => "rerun"

/-- The `TestResult` dataclass of `models.py`. -/
structure TestResult where
  tms_number : String
  test_name : String
  test_id : String
  status : TestStatus
  failure_reason : Option String := none
  duration : Option String := none
  timestamp : Option String := none
  jira_summary : Option String := none
  jira_test_steps : Option String := none
  execution_log : Option String := none
  deriving DecidableEq, Repr

/-- The `TestResult.tms_jira_format`: `tms_number.replace("_", "-")`. Since the
pattern is a single character, the replacement is a character map. -/
def TestResult.tms_jira_format (r : TestResult) : String :=
  String.mk (r.tms_number.data.map (fun c => if c = '_' then '-' else c))

/-- Lookup in the dict `{r.tms_number: r for r in rs}`: the last record with
the given key wins, as in CPython dict construction. -/
def dictLookup (rs : List TestResult) (tms : String) : Option TestResult :=
  (rs.filter (fun r => r.tms_number == tms)).getLast?

/-- The identifier set `{r.tms_number for r in rs if r.status.value == v}`,
as a duplicate-free list (membership is what the set is used for). -/
def statusSet (rs : List TestResult) (v : String) : List String :=
  ((rs.filter (fun r => r.status.value == v)).map (fun r => r.tms_number)).dedup

/-- Set difference `a - b` on identifier sets. -/
def setDiff (a b : List String) : List String :=
  a.filter (fun x => !(b.contains x))

/-- Set intersection `a & b` on identifier sets. -/
def setInter (a b : List String) : List String :=
  a.filter (fun x => b.contains x)

/-- Lexicographic code-point comparison `a <= b`, the order in which CPython
compares strings (used by `sorted` with a string key). -/
def leChars : List Char → List Char → Bool
  | [], _ => true
  | _ :: _, [] => false
  | a :: as, b :: bs => if a = b then leChars as bs else decide (a < b)

/-- Non-strict lexicographic code-point order on strings. -/
def strLe (a b : String) : Prop := leChars a.data b.data = true

/-- Strict lexicographic code-point order on strings. -/
def strLex (a b : String) : Prop := List.Lex (· < ·) a.data b.data

instance strLe.decidableRel : DecidableRel strLe := fun a b =>
  Bool.decEq (leChars a.data b.data) true

/-- Ascending sort of an identifier set, used for
`sorted(bucket, key=lambda r: r.tms_number)`: since the keys of one bucket
are pairwise distinct and `new_by_tms[t].tms_number = t`, sorting the key
set and then mapping the lookup equals building the record list and sorting
it by `tms_number`. -/
def sortIds (s : List String) : List String :=
  s.insertionSort strLe

/-- The `[new_by_tms[tms] for tms in ks]`: `none` models a `KeyError`. -/
def lookupAll (rs : List TestResult) : List String → Option (List TestResult)
  | [] => some []
  | t :: ts =>
    match dictLookup rs t, lookupAll rs ts with
    | some r, some l => some (r :: l)
    | _, _ => none

/-- One output bucket: the sorted identifier set mapped back to the
new-side records. -/
def bucket (rs : List TestResult) (s : List String) : Option (List TestResult) :=
  lookupAll rs (sortIds s)

/-- The `CompareResult` dataclass of `compare.py`. -/
structure CompareResult where
  new_failures : List TestResult
  fixed : List TestResult
  still_failing : List TestResult
  new_errors : List TestResult
  fixed_errors : List TestResult
  still_erroring : List TestResult
  new_passes : List TestResult
  deriving DecidableEq, Repr

/-- The `new_failure_tms = new_failed - old_failed - old_error`. -/
def new_failure_tms (old_results new_results : List TestResult) : List String :=
  setDiff (setDiff (statusSet new_results "failed") (statusSet old_results "failed"))
    (statusSet old_results "error")

/-- The `fixed_tms = old_failed & new_passed`. -/
def fixed_tms (old_results new_results : List TestResult) : List String :=
  setInter (statusSet old_results "failed") (statusSet new_results "passed")

/-- The `still_failing_tms = old_failed & new_failed`. -/
def still_failing_tms (old_results new_results : List TestResult) : List String :=
  setInter (statusSet old_results "failed") (statusSet new_results "failed")

/-- The `new_error_tms = new_error - old_error - old_failed`. -/
def new_error_tms (old_results new_results : List TestResult) : List String :=
  setDiff (setDiff (statusSet new_results "error") (statusSet old_results "error"))
    (statusSet old_results "failed")

/-- The `fixed_error_tms = old_error & new_passed`. -/
def fixed_error_tms (old_results new_results : List TestResult) : List String :=
  setInter (statusSet old_results "error") (statusSet new_results "passed")

/-- The `still_erroring_tms = old_error & new_error`. -/
def still_erroring_tms (old_results new_results : List TestResult) : List String :=
  setInter (statusSet old_results "error") (statusSet new_results "error")

/-- The `new_pass_tms = new_passed - old_passed - old_failed - old_error`. -/
def new_pass_tms (old_results new_results : List TestResult) : List String :=
  setDiff (setDiff (setDiff (statusSet new_results "passed") (statusSet old_results "passed"))
    (statusSet old_results "failed")) (statusSet old_results "error")

/-- The `compare_reports` of `compare.py`. -/
def compare_reports (old_results new_results : List TestResult) :
    Option CompareResult := do
  let new_failures ← bucket new_results (new_failure_tms old_results new_results)
  let fixed ← bucket new_results (fixed_tms old_results new_results)
  let still_failing ← bucket new_results (still_failing_tms old_results new_results)
  let new_errors ← bucket new_results (new_error_tms old_results new_results)
  let fixed_errors ← bucket new_results (fixed_error_tms old_results new_results)
  let still_erroring ← bucket new_results (still_erroring_tms old_results new_results)
  let new_passes ← bucket new_results (new_pass_tms old_results new_results)
  some ⟨new_failures, fixed, still_failing, new_errors, fixed_errors,
    still_erroring, new_passes⟩

/-- The identifiers of a record sequence, in order. -/
def resultIds (rs : List TestResult) : List String :=
  rs.map (fun r => r.tms_number)

/-- Spec-side identifier set: the identifiers of the records of `rs` whose
status is `s` (the spec's "identifiers of that side's records with that
status"). -/
def idsWithStatus (rs : List TestResult) (s : TestStatus) : List String :=
  (rs.filter (fun r => r.status == s)).map (fun r => r.tms_number)

/-- A bucket is well-formed: identifiers strictly ascending, every record a
member of the new side that the new-side lookup dict maps its identifier to. -/
def bucketOk (new l : List TestResult) : Prop :=
  (l.map (fun r => r.tms_number)).Sorted strLex ∧
    ∀ r ∈ l, r ∈ new ∧ dictLookup new r.tms_number = some r

/-- Concrete example from spec §8: old = A failed, B passed. -/
def exOldA : TestResult := ⟨"TMS_A", "ta", "pa", .failed, none, none, none, none, none, none⟩

def exOldB : TestResult := ⟨"TMS_B", "tb", "pb", .passed, none, none, none, none, none, none⟩

def exNewA : TestResult := ⟨"TMS_A", "ta", "pa", .passed, none, none, none, none, none, none⟩

def exNewB : TestResult := ⟨"TMS_B", "tb", "pb", .failed, none, none, none, none, none, none⟩

def exNewC : TestResult := ⟨"TMS_C", "tc", "pc", .failed, none, none, none, none, none, none⟩

def exOld : List TestResult := [exOldA, exOldB]

def exNew : List TestResult := [exNewA, exNewB, exNewC]

/-- The comparison result for `exOld` vs `exNew`. -/
def exRes : CompareResult := ⟨[exNewB, exNewC], [exNewA], [], [], [], [], []⟩

/-- The comparison result for `exOld` vs itself. -/
def exSelfRes : CompareResult := ⟨[], [], [exOldA], [], [], [], []⟩

/-- Old side of the disjointness counterexample: one failing record. -/
def cexOldRec : TestResult := ⟨"TMS_1", "a", "a", .failed, none, none, none, none, none, none⟩

/-- New side carries the same identifier with two contradictory statuses. -/
def cexNewPassed : TestResult := ⟨"TMS_1", "a", "a", .passed, none, none, none, none, none, none⟩

def cexOld : List TestResult := [cexOldRec]

def cexNew : List TestResult := [cexOldRec, cexNewPassed]

def cexRes : CompareResult := ⟨[], [cexNewPassed], [cexNewPassed], [], [], [], []⟩

/-- One styled `Text.append`. -/
structure Span where
  text : String
  style : String
  deriving DecidableEq, Repr

/-- A rich `Text`. -/
structure RText where
  spans : List Span
  deriving DecidableEq, Repr

/-- The `Text.plain`. -/
def RText.plain (t : RText) : String :=
  String.join (t.spans.map (fun s => s.text))

/-- The `str.lower`, ASCII case folding (agrees with CPython on ASCII text). -/
def lowerChars (cs : List Char) : List Char :=
  cs.map Char.toLower

/-- The `hay.find(needle)`: index of the first occurrence, `none` when absent. -/
def findSub (needle : List Char) : List Char → Option Nat
  | [] => if needle.isPrefixOf [] then some 0 else none
  | c :: t =>
    if needle.isPrefixOf (c :: t) then some 0
    else (findSub needle t).map (· + 1)

/-- The `needle in hay`. -/
def containsSub (hay needle : List Char) : Bool :=
  (findSub needle hay).isSome

/-- The `hay.find(needle, start)` (for the nonempty needles the code passes). -/
def findFrom (hay needle : List Char) (start : Nat) : Option Nat :=
  (findSub needle (hay.drop start)).map (· + start)

/-- The `while True` occurrence loop of `search_log`: repeated `find` from
`idx + 1`. The fuel argument bounds the iteration count; `hay.length + 1`
is enough for a nonempty needle because each found index is below
`hay.length` and the scan position strictly increases. -/
def occurrencesFrom (hay needle : List Char) : Nat → Nat → List Nat
  | 0, _ => []
  | fuel + 1, pos =>
    match findFrom hay needle pos with
    | none => []
    | some idx => idx :: occurrencesFrom hay needle fuel (idx + 1)

def occurrences (hay needle : List Char) : List Nat :=
  occurrencesFrom hay needle (hay.length + 1) 0

/-- The `plain[:idx].count("\n")`: the 0-based line number of position `idx`. -/
def lineOf (hay : List Char) (idx : Nat) : Nat :=
  (hay.take idx).count '\n'

/-- The six phrases of `SECTION_PATTERNS`, lowercased. -/
def sectionPhrases : List (List Char) :=
  ["live log setup".data, "live log call".data, "live log teardown".data,
   "captured log setup".data, "captured log call".data, "captured log teardown".data]

/-- After the phrase the pattern requires `\s*` then at least one dash. -/
def sectionTail (cs : List Char) : Bool :=
  match cs.dropWhile (fun c => c.isWhitespace) with
  | '-' :: _ => true
  | _ => false

/-- Does `-+\s*phrase\s*-+` match at the head of the (lowercased) suffix?
The phrase starts with a letter, so the dash run and the whitespace run are
both forced to be maximal and the split is unique. -/
def sectionMatchAt (phrase : List Char) : List Char → Bool
  | '-' :: rest =>
    let afterDashes := rest.dropWhile (fun c => c = '-')
    let afterSpace := afterDashes.dropWhile (fun c => c.isWhitespace)
    phrase.isPrefixOf afterSpace && sectionTail (afterSpace.drop phrase.length)
  | _ => false

/-- The `pattern.search`: does the pattern match at any suffix? -/
def searchAnywhere (p : List Char → Bool) : List Char → Bool
  | [] => p []
  | c :: t => p (c :: t) || searchAnywhere p t

/-- Does any of the six section patterns match somewhere in the line? -/
def isSectionLine (line : List Char) : Bool :=
  sectionPhrases.any (fun ph => searchAnywhere (sectionMatchAt ph) (lowerChars line))

/-- The `LOG_LEVEL_PATTERN` alternation, lowercased, in alternation order. -/
def levelTokens : List (List Char) :=
  ["fatal".data, "error".data, "err".data, "warning".data, "warn".data,
   "info".data, "debug".data, "dbg".data, "trace".data, "trc".data]

/-- A regex `\w` character (ASCII). -/
def isWordChar (c : Char) : Bool :=
  c.isAlphanum || c = '_'

/-- Try `\b(tok₁|...|tok₁₀)\b` at the head of the lowercased suffix: the
first token in alternation order that is a prefix and is followed by a word
boundary; `prevIsWord` records whether the preceding character was a word
character (the leading `\b`). Returns the token length. -/
def levelHere (prevIsWord : Bool) (cs : List Char) : Option Nat :=
  if prevIsWord then none
  else
    levelTokens.findSome? (fun tok =>
      if tok.isPrefixOf cs then
        match cs.drop tok.length with
        | [] => some tok.length
        | c :: _ => if isWordChar c then none else some tok.length
      else none)

/-- The `LOG_LEVEL_PATTERN.search(line)` scan over the lowercased line: first
match position and token length. -/
def levelSearchAux (prevIsWord : Bool) (cs : List Char) (idx : Nat) : Option (Nat × Nat) :=
  match cs with
  | [] => none
  | c :: t =>
    match levelHere prevIsWord (c :: t) with
    | some len => some (idx, len)
    | none => levelSearchAux (isWordChar c) t (idx + 1)

def levelSearchLine (line : List Char) : Option (Nat × Nat) :=
  levelSearchAux false (lowerChars line) 0

/-- The `LOG_COLORS.get(level)`, keyed by the lowercased matched token. -/
def logColor (tokLower : List Char) : String :=
  if tokLower = "fatal".data then "bold red reverse"
  else if tokLower = "error".data then "bold red"
  else if tokLower = "err".data then "bold red"
  else if tokLower = "warning".data then "yellow"
  else if tokLower = "warn".data then "yellow"
  else if tokLower = "info".data then "green"
  else if tokLower = "debug".data then "blue"
  else if tokLower = "dbg".data then "blue"
  else if tokLower = "trace".data then "dim cyan"
  else if tokLower = "trc".data then "dim cyan"
  else "white"

/-- The `_append_highlighted_line`: pieces of one line with every non-overlapping
occurrence of the (nonempty, lowercase) highlight styled. Fuel as in
`occurrencesFrom`. -/
def highlightSpans (line : List Char) (hl : List Char) : Nat → Nat → List Span
  | 0, pos => [⟨String.mk (line.drop pos) ++ "\n", ""⟩]
  | fuel + 1, pos =>
    match findFrom (lowerChars line) hl pos with
    | none => [⟨String.mk (line.drop pos) ++ "\n", ""⟩]
    | some idx =>
      (if pos < idx then [⟨String.mk ((line.drop pos).take (idx - pos)), ""⟩] else []) ++
        ⟨String.mk ((line.drop idx).take hl.length), "black on yellow"⟩ ::
          highlightSpans line hl fuel (idx + hl.length)

/-- The spans one log line contributes in `_append_colored_log`. -/
def lineSpans (line : List Char) (hl : List Char) (skipColoring : Bool) : List Span :=
  if isSectionLine line then
    [⟨String.mk line ++ "\n", "bold magenta reverse"⟩]
  else
    let hlHit := !hl.isEmpty && containsSub (lowerChars line) hl
    if skipColoring then
      if hlHit then highlightSpans line hl (line.length + 1) 0
      else [⟨String.mk line ++ "\n", ""⟩]
    else if hlHit then highlightSpans line hl (line.length + 1) 0
    else
      match levelSearchLine line with
      | some (idx, len) =>
        (if 0 < idx then [⟨String.mk (line.take idx), ""⟩] else []) ++
          [⟨String.mk ((line.drop idx).take len),
            logColor (lowerChars ((line.drop idx).take len))⟩] ++
          (if idx + len < line.length then [⟨String.mk (line.drop (idx + len)), ""⟩] else []) ++
          [⟨"\n", ""⟩]
      | none => [⟨String.mk line ++ "\n", ""⟩]

/-- The `log.split("\n")`: `n` separators yield `n + 1` pieces, empties kept. -/
def splitLines : List Char → List (List Char)
  | [] => [[]]
  | c :: t =>
    let r := splitLines t
    if c = '\n' then [] :: r
    else
      match r with
      | [] => [[c]]
      | l :: ls => (c :: l) :: ls

/-- The `_append_colored_log`. -/
def appendColoredLog (spans : List Span) (log : String) (highlight : String) : List Span :=
  let hl := lowerChars highlight.data
  let skipColoring := decide (log.length > 500000)
  spans ++ (splitLines log.data).flatMap (fun line => lineSpans line hl skipColoring)

/-- Python truthiness of an optional string field. -/
def truthy (o : Option String) : Bool :=
  !(o.getD "").isEmpty

/-- The `STATUS_COLORS.get(status, "white")`. -/
def statusColor : TestStatus → String
  | .passed => "green"
  | .failed => "red"
  | .skipped => "yellow"
  | .error => "red bold"
  | .xfailed => "dim yellow"
  | .xpassed => "dim green"
  | .rerun => "white"

/-- The `_build_detail_content`. -/
def buildDetailContent (r : TestResult) (highlight : String := "") : RText :=
  let spans : List Span := [⟨r.tms_jira_format, "bold cyan"⟩, ⟨"\n\n", ""⟩]
  let spans := if truthy r.jira_summary then
      spans ++ [⟨"Title: ", "cyan"⟩, ⟨r.jira_summary.getD "", ""⟩, ⟨"\n", ""⟩]
    else spans
  let spans := spans ++ [⟨"Test: ", "cyan"⟩, ⟨r.test_name, ""⟩, ⟨"\n", ""⟩]
  let spans := spans ++ [⟨"Path: ", "cyan"⟩, ⟨r.test_id, ""⟩, ⟨"\n", ""⟩]
  let spans := spans ++ [⟨"Status: ", "cyan"⟩, ⟨r.status.value, statusColor r.status⟩, ⟨"\n", ""⟩]
  let spans := if truthy r.duration then
      spans ++ [⟨"Duration: ", "cyan"⟩, ⟨r.duration.getD "", ""⟩, ⟨"\n", ""⟩]
    else spans
  let spans := if truthy r.failure_reason then
      spans ++ [⟨"\n", ""⟩, ⟨"Failure Reason:\n", "yellow bold"⟩,
        ⟨r.failure_reason.getD "", ""⟩, ⟨"\n", ""⟩]
    else spans
  let spans := if truthy r.jira_test_steps then
      spans ++ [⟨"\n", ""⟩, ⟨"Test Steps:\n", "green bold"⟩,
        ⟨r.jira_test_steps.getD "", ""⟩, ⟨"\n", ""⟩]
    else spans
  let spans := if truthy r.execution_log then
      appendColoredLog (spans ++ [⟨"\n", ""⟩, ⟨"Execution Log:\n", "magenta bold"⟩])
        (r.execution_log.getD "") highlight
    else spans
  ⟨spans⟩

/-- The state of one `TestDetailPanel` instance. -/
structure Panel where
  current_test : Option TestResult
  content_cache : List (String × RText)
  raw_log : String
  search_query : String
  search_matches : List Nat
  current_match : Int
  content : RText
  scroll_y : Nat
  deriving DecidableEq, Repr

/-- A just-composed panel: the widget shows the placeholder text. -/
def initPanel : Panel :=
  ⟨none, [], "", "", [], -1, ⟨[⟨"Select a test to view details", ""⟩]⟩, 0⟩

/-- The `key in cache`. -/
def dictContains (d : List (String × RText)) (k : String) : Bool :=
  d.any (fun kv => kv.1 == k)

/-- The `cache[key]` as an option. -/
def dictGet (d : List (String × RText)) (k : String) : Option RText :=
  (d.find? (fun kv => kv.1 == k)).map (fun kv => kv.2)

/-- The `cache[key] = v`: overwrite in place if present, else append. -/
def dictInsert (d : List (String × RText)) (k : String) (v : RText) :
    List (String × RText) :=
  if dictContains d k then d.map (fun kv => if kv.1 == k then (k, v) else kv)
  else d ++ [(k, v)]

/-- The `del cache[key]`. -/
def dictDelete (d : List (String × RText)) (k : String) : List (String × RText) :=
  d.filter (fun kv => kv.1 != k)

/-- The `show_test`. -/
def showTest (p : Panel) (r : TestResult) : Panel :=
  let key := r.tms_number
  let cc :=
    match dictGet p.content_cache key with
    | some c => (c, p.content_cache)
    | none =>
      let c := buildDetailContent r
      (c, if p.content_cache.length < 100 then dictInsert p.content_cache key c
          else p.content_cache)
  { current_test := some r
    raw_log := r.execution_log.getD ""
    search_query := ""
    search_matches := []
    current_match := -1
    content_cache := cc.2
    content := cc.1
    scroll_y := 0 }

/-- The `_find_line_in_content`. -/
def findLineInContent (p : Panel) (searchText : String) : Int :=
  let plain := (RText.plain p.content).data
  match findSub (lowerChars searchText.data) (lowerChars plain) with
  | none => -1
  | some idx => Int.ofNat (lineOf plain idx)

/-- The `SECTION_MARKERS`. -/
def sectionMarkers (sect : String) : List String :=
  if sect = "setup" then ["live log setup", "captured log setup"]
  else if sect = "call" then ["live log call", "captured log call"]
  else if sect = "teardown" then ["live log teardown", "captured log teardown"]
  else []

/-- The `jump_to_section`: the first marker found in the rendered content wins;
on success the panel scrolls to its line. -/
def jumpToSection (p : Panel) (sect : String) : Panel × Bool :=
  match (sectionMarkers sect).findSome? (fun m =>
      let line := findLineInContent p m
      if 0 ≤ line then some line.toNat else none) with
  | some y => ({ p with scroll_y := y }, true)
  | none => (p, false)

/-- The `search_log`: returns the updated panel and the match count. -/
def searchLog (p : Panel) (query : String) : Panel × Nat :=
  let p1 := { p with search_query := String.mk (lowerChars query.data)
                     search_matches := ([] : List Nat)
                     current_match := (-1 : Int) }
  if query.isEmpty || p1.raw_log.isEmpty then
    match p1.current_test with
    | some r =>
      let key := r.tms_number
      let cache := dictDelete p1.content_cache key
      let content := buildDetailContent r
      ({ p1 with content_cache := dictInsert cache key content, content := content }, 0)
    | none => (p1, 0)
  else
    let p2 :=
      match p1.current_test with
      | some r =>
        { p1 with content_cache := dictDelete p1.content_cache r.tms_number
                  content := buildDetailContent r query }
      | none => p1
    let plain := (RText.plain p2.content).data
    let ms := (occurrences (lowerChars plain) (lowerChars query.data)).map
      (fun idx => lineOf plain idx)
    let p3 := { p2 with search_matches := ms }
    if ms.isEmpty then (p3, 0)
    else ({ p3 with current_match := 0, scroll_y := ms.headD 0 }, ms.length)

/-- The `_scroll_to_match`. -/
def scrollToMatch (p : Panel) (idx : Int) : Panel :=
  if 0 ≤ idx ∧ idx < (p.search_matches.length : Int) then
    { p with scroll_y := p.search_matches.getD idx.toNat 0 }
  else p

/-- The `next_match`. -/
def nextMatch (p : Panel) : Panel × Bool :=
  if p.search_matches.isEmpty then (p, false)
  else
    let i := (p.current_match + 1) % (p.search_matches.length : Int)
    (scrollToMatch { p with current_match := i } i, true)

/-- The `prev_match`. -/
def prevMatch (p : Panel) : Panel × Bool :=
  if p.search_matches.isEmpty then (p, false)
  else
    let i := (p.current_match - 1) % (p.search_matches.length : Int)
    (scrollToMatch { p with current_match := i } i, true)

/-- A user-driven operation on the panel. -/
inductive PanelOp where
  | show (r : TestResult)
  | search (q : String)
  deriving Repr

def applyOp (p : Panel) : PanelOp → Panel
  | .show r => showTest p r
  | .search q => (searchLog p q).1

def applyOps (p : Panel) (ops : List PanelOp) : Panel :=
  ops.foldl applyOp p

/-- A panel in mid-search: two matches, pointer on the first. -/
def wPanel : Panel :=
  { initPanel with search_matches := [1, 4], current_match := 0 }

def isSearchOp : PanelOp → Bool
  | .show _ => false
  | .search _ => true

/-- Every cached rendering is one built without a highlight. -/
def cacheUnhighlighted (p : Panel) : Prop :=
  ∀ kv ∈ p.content_cache, ∃ r', kv.2 = buildDetailContent r'

/-- A record whose log holds the search term twice on one line. -/
def logRec : TestResult :=
  ⟨"TMS_1", "t", "p", .failed, none, none, none, none, none, some "zqz zqz"⟩

/-- Records with pairwise distinct identifiers, for filling the cache. -/
def mkCacheRec (i : Nat) : TestResult :=
  ⟨"T" ++ toString i, "", "", .passed, none, none, none, none, none, none⟩

/-- 101 selections (the 101st no longer cached) followed by one search on
the 101st record, whose log is absent: the rebuild branch re-caches it
unconditionally. -/
def cacheCexOps : List PanelOp :=
  (List.range 101).map (fun i => PanelOp.show (mkCacheRec i)) ++ [PanelOp.search "q"]

/-- All positions at which `needle` occurs in `hay` (the claim-level notion
of "every occurrence"), in increasing order. -/
def matchPositions (hay needle : List Char) : List Nat :=
  (List.range hay.length).filter (fun i => needle.isPrefixOf (hay.drop i))

/-- The panel the non-rebuild branch of `search_log` builds, before the
pointer initialization. -/
def searchedPanel (p : Panel) (q : String) (r : TestResult) : Panel :=
  { current_test := some r
    content_cache := dictDelete p.content_cache r.tms_number
    raw_log := p.raw_log
    search_query := String.mk (lowerChars q.data)
    search_matches := (occurrences (lowerChars (buildDetailContent r q).plain.data)
      (lowerChars q.data)).map (lineOf (buildDetailContent r q).plain.data)
    current_match := -1
    content := buildDetailContent r q
    scroll_y := p.scroll_y }

/-- The original claim's count: raw log lines containing the query
case-insensitively, one count per line. -/
def rawLinesContaining (log q : String) : Nat :=
  ((splitLines log.data).filter
    (fun l => containsSub (lowerChars l) (lowerChars q.data))).length

/-- A record whose log carries a `captured log call` header before a
`live log call` header. -/
def jumpRec : TestResult :=
  ⟨"TMS_1", "t", "p", .failed, none, none, none, none, none,
    some "captured log call\nzz\nlive log call"⟩

/-- The spec §8 example log with dashed section banners. -/
def bannerRec : TestResult :=
  ⟨"TMS_2", "t", "p", .failed, none, none, none, none, none,
    some "----- live log call -----\nINFO x\n----- live log teardown -----\nDEBUG y"⟩

/-! ## Theorems -/

theorem TestStatus.value_inj : ∀ a b : TestStatus, a.value = b.value ↔ a = b := by
  intro a b
  cases a <;> cases b <;> decide

theorem mem_statusSet {rs : List TestResult} {v : String} {x : String} :
    x ∈ statusSet rs v ↔ ∃ r ∈ rs, r.status.value = v ∧ r.tms_number = x := by
  simp only [statusSet, List.mem_dedup, List.mem_map, List.mem_filter, beq_iff_eq]
  constructor
  · rintro ⟨r, ⟨hr, hv⟩, hx⟩
    exact ⟨r, hr, hv, hx⟩
  · rintro ⟨r, hr, hv, hx⟩
    exact ⟨r, ⟨hr, hv⟩, hx⟩

theorem mem_idsWithStatus {rs : List TestResult} {s : TestStatus} {x : String} :
    x ∈ idsWithStatus rs s ↔ ∃ r ∈ rs, r.status = s ∧ r.tms_number = x := by
  simp only [idsWithStatus, List.mem_map, List.mem_filter, beq_iff_eq]
  constructor
  · rintro ⟨r, ⟨hr, hv⟩, hx⟩
    exact ⟨r, hr, hv, hx⟩
  · rintro ⟨r, hr, hv, hx⟩
    exact ⟨r, ⟨hr, hv⟩, hx⟩

theorem mem_statusSet_value {rs : List TestResult} {s : TestStatus} {x : String} :
    x ∈ statusSet rs s.value ↔ x ∈ idsWithStatus rs s := by
  rw [mem_statusSet, mem_idsWithStatus]
  constructor
  · rintro ⟨r, hr, hv, hx⟩
    exact ⟨r, hr, (TestStatus.value_inj _ _).mp hv, hx⟩
  · rintro ⟨r, hr, hv, hx⟩
    exact ⟨r, hr, hv ▸ rfl, hx⟩

theorem statusSet_nodup (rs : List TestResult) (v : String) :
    (statusSet rs v).Nodup :=
  List.nodup_dedup _

theorem mem_setDiff {a b : List String} {x : String} :
    x ∈ setDiff a b ↔ x ∈ a ∧ x ∉ b := by
  simp [setDiff, List.mem_filter, List.elem_iff]

theorem mem_setInter {a b : List String} {x : String} :
    x ∈ setInter a b ↔ x ∈ a ∧ x ∈ b := by
  simp [setInter, List.mem_filter, List.elem_iff]

theorem setDiff_nodup {a : List String} (b : List String) (h : a.Nodup) :
    (setDiff a b).Nodup :=
  List.Nodup.filter _ h

theorem setInter_nodup {a : List String} (b : List String) (h : a.Nodup) :
    (setInter a b).Nodup :=
  List.Nodup.filter _ h

theorem leChars_iff_not_lex :
    ∀ as bs : List Char, leChars as bs = true ↔ ¬ List.Lex (· < ·) bs as := by
  intro as
  induction as with
  | nil =>
    intro bs
    refine iff_of_true rfl (List.Lex.not_nil_right _ _)
  | cons a as ih =>
    intro bs
    cases bs with
    | nil =>
      refine iff_of_false (by simp [leChars]) ?_
      intro h
      exact h List.Lex.nil
    | cons b bs =>
      by_cases hab : a = b
      · subst hab
        rw [leChars, if_pos rfl, ih bs, List.Lex.cons_iff]
      · rw [leChars, if_neg hab, decide_eq_true_iff]
        constructor
        · intro hlt hlex
          cases hlex with
          | rel h => exact absurd hlt (asymm h)
          | cons h => exact hab rfl
        · intro hnlex
          rcases lt_trichotomy a b with h | h | h
          · exact h
          · exact absurd h hab
          · exact absurd (List.Lex.rel h) hnlex

theorem strLe_total : ∀ a b : String, strLe a b ∨ strLe b a := by
  intro a b
  by_cases h : leChars a.data b.data = true
  · exact Or.inl h
  · right
    have hlex : List.Lex (· < ·) b.data a.data := by
      by_contra hn
      exact h ((leChars_iff_not_lex a.data b.data).mpr hn)
    exact (leChars_iff_not_lex b.data a.data).mpr (asymm hlex)

theorem strLe_trans : ∀ a b c : String, strLe a b → strLe b c → strLe a c := by
  intro a b c hab hbc
  rw [strLe, leChars_iff_not_lex] at hab hbc ⊢
  intro hca
  rcases @trichotomous (List Char) (List.Lex (· < ·)) _ a.data b.data with h | h | h
  · exact hbc (Trans.trans hca h)
  · exact hbc (h ▸ hca)
  · exact hab h

theorem string_data_inj {a b : String} (h : a.data = b.data) : a = b := by
  cases a
  cases b
  exact congrArg String.mk h

theorem sortIds_perm (s : List String) : (sortIds s).Perm s :=
  List.perm_insertionSort _ s

theorem mem_sortIds {s : List String} {x : String} : x ∈ sortIds s ↔ x ∈ s :=
  (sortIds_perm s).mem_iff

theorem sortIds_sorted (s : List String) : (sortIds s).Sorted strLe :=
  @List.sorted_insertionSort String strLe strLe.decidableRel ⟨strLe_total⟩ ⟨strLe_trans⟩ s

theorem sortIds_sorted_lex {s : List String} (h : s.Nodup) :
    (sortIds s).Sorted strLex := by
  have hnd : (sortIds s).Nodup := ((sortIds_perm s).nodup_iff).mpr h
  have hle := sortIds_sorted s
  refine (hle.and hnd).imp (fun hab => ?_)
  obtain ⟨hle', hne⟩ := hab
  rw [strLe, leChars_iff_not_lex] at hle'
  rcases @trichotomous (List Char) (List.Lex (· < ·)) _ _ _ with h' | h' | h'
  · exact h'
  · exact absurd (string_data_inj h') hne
  · exact absurd h' hle'

theorem dictLookup_eq_some {rs : List TestResult} {t : String} {r : TestResult}
    (h : dictLookup rs t = some r) : r ∈ rs ∧ r.tms_number = t := by
  rw [dictLookup] at h
  have hmem : r ∈ rs.filter (fun r => r.tms_number == t) := by
    have hx : r ∈ (rs.filter (fun r => r.tms_number == t)).getLast? := by
      rw [h]; rfl
    obtain ⟨hne, hEq⟩ := List.mem_getLast?_eq_getLast hx
    exact hEq ▸ List.getLast_mem hne
  have := List.mem_filter.mp hmem
  exact ⟨this.1, by simpa using this.2⟩

theorem dictLookup_isSome {rs : List TestResult} {t : String}
    (h : ∃ r ∈ rs, r.tms_number = t) : (dictLookup rs t).isSome = true := by
  obtain ⟨r, hr, ht⟩ := h
  rw [dictLookup, List.getLast?_isSome]
  intro hnil
  have : r ∈ rs.filter (fun r => r.tms_number == t) :=
    List.mem_filter.mpr ⟨hr, by simp [ht]⟩
  rw [hnil] at this
  exact absurd this (List.not_mem_nil r)

theorem lookupAll_spec (rs : List TestResult) :
    ∀ ks : List String, (∀ t ∈ ks, ∃ r ∈ rs, r.tms_number = t) →
      ∃ l, lookupAll rs ks = some l ∧ l.map (fun r => r.tms_number) = ks ∧
        ∀ r ∈ l, r ∈ rs ∧ dictLookup rs r.tms_number = some r
  | [], _ => ⟨[], rfl, rfl, by intro r hr; exact absurd hr (List.not_mem_nil r)⟩
  | t :: ts, h => by
    have ht : (dictLookup rs t).isSome = true := dictLookup_isSome (h t (by simp))
    obtain ⟨r, hr⟩ := Option.isSome_iff_exists.mp ht
    obtain ⟨l, hl, hmap, hlk⟩ :=
      lookupAll_spec rs ts (fun u hu => h u (List.mem_cons_of_mem _ hu))
    refine ⟨r :: l, ?_, ?_, ?_⟩
    · rw [lookupAll, hr, hl]
    · obtain ⟨hrm, hrt⟩ := dictLookup_eq_some hr
      simp [hrt, hmap]
    · intro r' hr'
      rcases List.mem_cons.mp hr' with h1 | h2
      · subst h1
        obtain ⟨hrm, hrt⟩ := dictLookup_eq_some hr
        exact ⟨hrm, hrt ▸ hr⟩
      · exact hlk r' h2

theorem bucket_spec {rs : List TestResult} {s : List String}
    (h : ∀ t ∈ s, ∃ r ∈ rs, r.tms_number = t) :
    ∃ l, bucket rs s = some l ∧ l.map (fun r => r.tms_number) = sortIds s ∧
      ∀ r ∈ l, r ∈ rs ∧ dictLookup rs r.tms_number = some r :=
  lookupAll_spec rs (sortIds s) (fun t ht => h t (mem_sortIds.mp ht))

theorem mem_statusSet_failed {rs : List TestResult} {x : String} :
    x ∈ statusSet rs "failed" ↔ x ∈ idsWithStatus rs .failed :=
  mem_statusSet_value (s := .failed)

theorem mem_statusSet_error {rs : List TestResult} {x : String} :
    x ∈ statusSet rs "error" ↔ x ∈ idsWithStatus rs .error :=
  mem_statusSet_value (s := .error)

theorem mem_statusSet_passed {rs : List TestResult} {x : String} :
    x ∈ statusSet rs "passed" ↔ x ∈ idsWithStatus rs .passed :=
  mem_statusSet_value (s := .passed)

theorem mem_new_failure_tms {old new : List TestResult} {x : String} :
    x ∈ new_failure_tms old new ↔
      x ∈ idsWithStatus new .failed ∧ x ∉ idsWithStatus old .failed ∧
        x ∉ idsWithStatus old .error := by
  rw [new_failure_tms, mem_setDiff, mem_setDiff, mem_statusSet_failed,
    mem_statusSet_failed, mem_statusSet_error]
  tauto

theorem mem_fixed_tms {old new : List TestResult} {x : String} :
    x ∈ fixed_tms old new ↔
      x ∈ idsWithStatus old .failed ∧ x ∈ idsWithStatus new .passed := by
  rw [fixed_tms, mem_setInter, mem_statusSet_failed, mem_statusSet_passed]

theorem mem_still_failing_tms {old new : List TestResult} {x : String} :
    x ∈ still_failing_tms old new ↔
      x ∈ idsWithStatus old .failed ∧ x ∈ idsWithStatus new .failed := by
  rw [still_failing_tms, mem_setInter, mem_statusSet_failed, mem_statusSet_failed]

theorem mem_new_error_tms {old new : List TestResult} {x : String} :
    x ∈ new_error_tms old new ↔
      x ∈ idsWithStatus new .error ∧ x ∉ idsWithStatus old .error ∧
        x ∉ idsWithStatus old .failed := by
  rw [new_error_tms, mem_setDiff, mem_setDiff, mem_statusSet_error,
    mem_statusSet_error, mem_statusSet_failed]
  tauto

theorem mem_fixed_error_tms {old new : List TestResult} {x : String} :
    x ∈ fixed_error_tms old new ↔
      x ∈ idsWithStatus old .error ∧ x ∈ idsWithStatus new .passed := by
  rw [fixed_error_tms, mem_setInter, mem_statusSet_error, mem_statusSet_passed]

theorem mem_still_erroring_tms {old new : List TestResult} {x : String} :
    x ∈ still_erroring_tms old new ↔
      x ∈ idsWithStatus old .error ∧ x ∈ idsWithStatus new .error := by
  rw [still_erroring_tms, mem_setInter, mem_statusSet_error, mem_statusSet_error]

theorem mem_new_pass_tms {old new : List TestResult} {x : String} :
    x ∈ new_pass_tms old new ↔
      x ∈ idsWithStatus new .passed ∧ x ∉ idsWithStatus old .passed ∧
        x ∉ idsWithStatus old .failed ∧ x ∉ idsWithStatus old .error := by
  rw [new_pass_tms, mem_setDiff, mem_setDiff, mem_setDiff, mem_statusSet_passed,
    mem_statusSet_passed, mem_statusSet_failed, mem_statusSet_error]
  tauto

theorem mem_idsWithStatus_exists {rs : List TestResult} {s : TestStatus} {x : String}
    (h : x ∈ idsWithStatus rs s) : ∃ r ∈ rs, r.tms_number = x := by
  obtain ⟨r, hr, _, ht⟩ := mem_idsWithStatus.mp h
  exact ⟨r, hr, ht⟩

theorem new_failure_tms_sub {old new : List TestResult} {x : String}
    (h : x ∈ new_failure_tms old new) : ∃ r ∈ new, r.tms_number = x :=
  mem_idsWithStatus_exists (mem_new_failure_tms.mp h).1

theorem fixed_tms_sub {old new : List TestResult} {x : String}
    (h : x ∈ fixed_tms old new) : ∃ r ∈ new, r.tms_number = x :=
  mem_idsWithStatus_exists (mem_fixed_tms.mp h).2

theorem still_failing_tms_sub {old new : List TestResult} {x : String}
    (h : x ∈ still_failing_tms old new) : ∃ r ∈ new, r.tms_number = x :=
  mem_idsWithStatus_exists (mem_still_failing_tms.mp h).2

theorem new_error_tms_sub {old new : List TestResult} {x : String}
    (h : x ∈ new_error_tms old new) : ∃ r ∈ new, r.tms_number = x :=
  mem_idsWithStatus_exists (mem_new_error_tms.mp h).1

theorem fixed_error_tms_sub {old new : List TestResult} {x : String}
    (h : x ∈ fixed_error_tms old new) : ∃ r ∈ new, r.tms_number = x :=
  mem_idsWithStatus_exists (mem_fixed_error_tms.mp h).2

theorem still_erroring_tms_sub {old new : List TestResult} {x : String}
    (h : x ∈ still_erroring_tms old new) : ∃ r ∈ new, r.tms_number = x :=
  mem_idsWithStatus_exists (mem_still_erroring_tms.mp h).2

theorem new_pass_tms_sub {old new : List TestResult} {x : String}
    (h : x ∈ new_pass_tms old new) : ∃ r ∈ new, r.tms_number = x :=
  mem_idsWithStatus_exists (mem_new_pass_tms.mp h).1

theorem new_failure_tms_nodup (old new : List TestResult) :
    (new_failure_tms old new).Nodup :=
  setDiff_nodup _ (setDiff_nodup _ (statusSet_nodup _ _))

theorem fixed_tms_nodup (old new : List TestResult) : (fixed_tms old new).Nodup :=
  setInter_nodup _ (statusSet_nodup _ _)

theorem still_failing_tms_nodup (old new : List TestResult) :
    (still_failing_tms old new).Nodup :=
  setInter_nodup _ (statusSet_nodup _ _)

theorem new_error_tms_nodup (old new : List TestResult) :
    (new_error_tms old new).Nodup :=
  setDiff_nodup _ (setDiff_nodup _ (statusSet_nodup _ _))

theorem fixed_error_tms_nodup (old new : List TestResult) :
    (fixed_error_tms old new).Nodup :=
  setInter_nodup _ (statusSet_nodup _ _)

theorem still_erroring_tms_nodup (old new : List TestResult) :
    (still_erroring_tms old new).Nodup :=
  setInter_nodup _ (statusSet_nodup _ _)

theorem new_pass_tms_nodup (old new : List TestResult) :
    (new_pass_tms old new).Nodup :=
  setDiff_nodup _ (setDiff_nodup _ (setDiff_nodup _ (statusSet_nodup _ _)))

/-- Master characterization of `compare_reports`: it always succeeds, each
bucket's identifier list is the sorted corresponding identifier set, and
every record in a bucket is what the new-side lookup dict maps its
identifier to. -/
theorem compare_spec (old new : List TestResult) :
    ∃ res : CompareResult, compare_reports old new = some res ∧
      res.new_failures.map (fun r => r.tms_number) = sortIds (new_failure_tms old new) ∧
      res.fixed.map (fun r => r.tms_number) = sortIds (fixed_tms old new) ∧
      res.still_failing.map (fun r => r.tms_number) = sortIds (still_failing_tms old new) ∧
      res.new_errors.map (fun r => r.tms_number) = sortIds (new_error_tms old new) ∧
      res.fixed_errors.map (fun r => r.tms_number) = sortIds (fixed_error_tms old new) ∧
      res.still_erroring.map (fun r => r.tms_number) = sortIds (still_erroring_tms old new) ∧
      res.new_passes.map (fun r => r.tms_number) = sortIds (new_pass_tms old new) ∧
      (∀ r ∈ res.new_failures, r ∈ new ∧ dictLookup new r.tms_number = some r) ∧
      (∀ r ∈ res.fixed, r ∈ new ∧ dictLookup new r.tms_number = some r) ∧
      (∀ r ∈ res.still_failing, r ∈ new ∧ dictLookup new r.tms_number = some r) ∧
      (∀ r ∈ res.new_errors, r ∈ new ∧ dictLookup new r.tms_number = some r) ∧
      (∀ r ∈ res.fixed_errors, r ∈ new ∧ dictLookup new r.tms_number = some r) ∧
      (∀ r ∈ res.still_erroring, r ∈ new ∧ dictLookup new r.tms_number = some r) ∧
      (∀ r ∈ res.new_passes, r ∈ new ∧ dictLookup new r.tms_number = some r) := by
  obtain ⟨l1, hb1, hm1, hk1⟩ := bucket_spec (fun t ht => new_failure_tms_sub ht)
  obtain ⟨l2, hb2, hm2, hk2⟩ := bucket_spec (fun t ht => fixed_tms_sub ht)
  obtain ⟨l3, hb3, hm3, hk3⟩ := bucket_spec (fun t ht => still_failing_tms_sub ht)
  obtain ⟨l4, hb4, hm4, hk4⟩ := bucket_spec (fun t ht => new_error_tms_sub ht)
  obtain ⟨l5, hb5, hm5, hk5⟩ := bucket_spec (fun t ht => fixed_error_tms_sub ht)
  obtain ⟨l6, hb6, hm6, hk6⟩ := bucket_spec (fun t ht => still_erroring_tms_sub ht)
  obtain ⟨l7, hb7, hm7, hk7⟩ := bucket_spec (fun t ht => new_pass_tms_sub ht)
  refine ⟨⟨l1, l2, l3, l4, l5, l6, l7⟩, ?_, hm1, hm2, hm3, hm4, hm5, hm6, hm7,
    hk1, hk2, hk3, hk4, hk5, hk6, hk7⟩
  rw [compare_reports, hb1, hb2, hb3, hb4, hb5, hb6, hb7]
  rfl

theorem setDiff_self (a : List String) : setDiff a a = [] :=
  List.filter_eq_nil_iff.mpr (fun x hx => by simp [List.elem_iff, hx])

theorem setDiff_nil (b : List String) : setDiff [] b = [] := rfl

theorem setInter_self (a : List String) : setInter a a = a :=
  List.filter_eq_self.mpr (fun x hx => by simp [List.elem_iff, hx])

/-- Shared helper: each bucket's identifier set against the spec's set
algebra over the status-keyed identifier sets of the two sides. -/
theorem bucket_ids_algebra (old new : List TestResult)
    (res : CompareResult) (h : compare_reports old new = some res) (x : String) :
    (x ∈ res.new_failures.map (fun r => r.tms_number) ↔
      x ∈ idsWithStatus new .failed ∧ x ∉ idsWithStatus old .failed ∧
        x ∉ idsWithStatus old .error) ∧
    (x ∈ res.fixed.map (fun r => r.tms_number) ↔
      x ∈ idsWithStatus old .failed ∧ x ∈ idsWithStatus new .passed) ∧
    (x ∈ res.still_failing.map (fun r => r.tms_number) ↔
      x ∈ idsWithStatus old .failed ∧ x ∈ idsWithStatus new .failed) ∧
    (x ∈ res.new_errors.map (fun r => r.tms_number) ↔
      x ∈ idsWithStatus new .error ∧ x ∉ idsWithStatus old .error ∧
        x ∉ idsWithStatus old .failed) ∧
    (x ∈ res.fixed_errors.map (fun r => r.tms_number) ↔
      x ∈ idsWithStatus old .error ∧ x ∈ idsWithStatus new .passed) ∧
    (x ∈ res.still_erroring.map (fun r => r.tms_number) ↔
      x ∈ idsWithStatus old .error ∧ x ∈ idsWithStatus new .error) ∧
    (x ∈ res.new_passes.map (fun r => r.tms_number) ↔
      x ∈ idsWithStatus new .passed ∧ x ∉ idsWithStatus old .passed ∧
        x ∉ idsWithStatus old .failed ∧ x ∉ idsWithStatus old .error) := by
  obtain ⟨res', h', hm1, hm2, hm3, hm4, hm5, hm6, hm7, -⟩ := compare_spec old new
  rw [h'] at h
  obtain rfl : res' = res := Option.some.inj h
  rw [hm1, hm2, hm3, hm4, hm5, hm6, hm7]
  refine ⟨?_, ?_, ?_, ?_, ?_, ?_, ?_⟩
  · rw [mem_sortIds]; exact mem_new_failure_tms
  · rw [mem_sortIds]; exact mem_fixed_tms
  · rw [mem_sortIds]; exact mem_still_failing_tms
  · rw [mem_sortIds]; exact mem_new_error_tms
  · rw [mem_sortIds]; exact mem_fixed_error_tms
  · rw [mem_sortIds]; exact mem_still_erroring_tms
  · rw [mem_sortIds]; exact mem_new_pass_tms

/-- C1: the identifier sets of the seven comparator buckets equal the spec's
set algebra over the status-keyed identifier sets of the two sides:
new_failures = new_failed - old_failed - old_error, fixed = old_failed ∩
new_passed, still_failing = old_failed ∩ new_failed, new_errors = new_error
- old_error - old_failed, fixed_errors = old_error ∩ new_passed,
still_erroring = old_error ∩ new_error, new_passes = new_passed - old_passed
- old_failed - old_error. -/
theorem comparator_buckets_follow_set_algebra (old new : List TestResult)
    (res : CompareResult) (h : compare_reports old new = some res) (x : String) :
    (x ∈ res.new_failures.map (fun r => r.tms_number) ↔
      x ∈ idsWithStatus new .failed ∧ x ∉ idsWithStatus old .failed ∧
        x ∉ idsWithStatus old .error) ∧
    (x ∈ res.fixed.map (fun r => r.tms_number) ↔
      x ∈ idsWithStatus old .failed ∧ x ∈ idsWithStatus new .passed) ∧
    (x ∈ res.still_failing.map (fun r => r.tms_number) ↔
      x ∈ idsWithStatus old .failed ∧ x ∈ idsWithStatus new .failed) ∧
    (x ∈ res.new_errors.map (fun r => r.tms_number) ↔
      x ∈ idsWithStatus new .error ∧ x ∉ idsWithStatus old .error ∧
        x ∉ idsWithStatus old .failed) ∧
    (x ∈ res.fixed_errors.map (fun r => r.tms_number) ↔
      x ∈ idsWithStatus old .error ∧ x ∈ idsWithStatus new .passed) ∧
    (x ∈ res.still_erroring.map (fun r => r.tms_number) ↔
      x ∈ idsWithStatus old .error ∧ x ∈ idsWithStatus new .error) ∧
    (x ∈ res.new_passes.map (fun r => r.tms_number) ↔
      x ∈ idsWithStatus new .passed ∧ x ∉ idsWithStatus old .passed ∧
        x ∉ idsWithStatus old .failed ∧ x ∉ idsWithStatus old .error) :=
  bucket_ids_algebra old new res h x

/-- C1 witness: the spec §8 example, instantiated at identifier TMS_B. -/
theorem comparator_buckets_follow_set_algebra_witness :
    compare_reports exOld exNew = some exRes ∧
    ("TMS_B" ∈ exRes.new_failures.map (fun r => r.tms_number) ↔
      "TMS_B" ∈ idsWithStatus exNew .failed ∧ "TMS_B" ∉ idsWithStatus exOld .failed ∧
        "TMS_B" ∉ idsWithStatus exOld .error) :=
  ⟨by rfl,
   (comparator_buckets_follow_set_algebra exOld exNew exRes (by rfl) "TMS_B").1⟩

/-- On a single-status input, any two distinct status sets are disjoint, so
the intersection filter is empty. -/
theorem setInter_statusSet_self_eq_nil {R : List TestResult} {u v : String}
    (hss : ∀ r ∈ R, ∀ r' ∈ R, r.tms_number = r'.tms_number → r.status = r'.status)
    (huv : u ≠ v) :
    setInter (statusSet R u) (statusSet R v) = [] := by
  refine List.filter_eq_nil_iff.mpr (fun x hx => ?_)
  simp only [List.elem_iff, Bool.not_eq_true]
  intro hmem
  obtain ⟨r, hr, hru, hrx⟩ := mem_statusSet.mp hx
  obtain ⟨r', hr', hrv, hrx'⟩ := mem_statusSet.mp hmem
  have : r.status = r'.status := hss r hr r' hr' (by rw [hrx, hrx'])
  exact huv (hru ▸ hrv ▸ congrArg TestStatus.value this)

/-- C3: comparing a report against itself yields `still_failing` = the failing
identifiers, `still_erroring` = the erroring identifiers, and the other five
buckets empty, given a single status per identifier. -/
theorem comparator_self_comparison (R : List TestResult) (res : CompareResult)
    (hss : ∀ r ∈ R, ∀ r' ∈ R, r.tms_number = r'.tms_number → r.status = r'.status)
    (h : compare_reports R R = some res) (x : String) :
    (x ∈ res.still_failing.map (fun r => r.tms_number) ↔ x ∈ idsWithStatus R .failed) ∧
    (x ∈ res.still_erroring.map (fun r => r.tms_number) ↔ x ∈ idsWithStatus R .error) ∧
    res.fixed = [] ∧ res.new_failures = [] ∧ res.new_errors = [] ∧
    res.fixed_errors = [] ∧ res.new_passes = [] := by
  obtain ⟨res', h', hm1, hm2, hm3, hm4, hm5, hm6, hm7, -⟩ := compare_spec R R
  rw [h'] at h
  obtain rfl : res' = res := Option.some.inj h
  have hfix : fixed_tms R R = [] :=
    setInter_statusSet_self_eq_nil hss (by decide)
  have hfixerr : fixed_error_tms R R = [] :=
    setInter_statusSet_self_eq_nil hss (by decide)
  have hnf : new_failure_tms R R = [] := by
    rw [new_failure_tms, setDiff_self]
    rfl
  have hne : new_error_tms R R = [] := by
    rw [new_error_tms, setDiff_self]
    rfl
  have hnp : new_pass_tms R R = [] := by
    rw [new_pass_tms, setDiff_self]
    rfl
  refine ⟨?_, ?_, ?_, ?_, ?_, ?_, ?_⟩
  · rw [hm3, mem_sortIds, mem_still_failing_tms]
    exact ⟨fun hx => hx.1, fun hx => ⟨hx, hx⟩⟩
  · rw [hm6, mem_sortIds, mem_still_erroring_tms]
    exact ⟨fun hx => hx.1, fun hx => ⟨hx, hx⟩⟩
  · rw [hfix] at hm2
    exact List.map_eq_nil_iff.mp hm2
  · rw [hnf] at hm1
    exact List.map_eq_nil_iff.mp hm1
  · rw [hne] at hm4
    exact List.map_eq_nil_iff.mp hm4
  · rw [hfixerr] at hm5
    exact List.map_eq_nil_iff.mp hm5
  · rw [hnp] at hm7
    exact List.map_eq_nil_iff.mp hm7

/-- C3 witness: comparing `exOld` against itself. -/
theorem comparator_self_comparison_witness :
    compare_reports exOld exOld = some exSelfRes ∧
    ("TMS_A" ∈ exSelfRes.still_failing.map (fun r => r.tms_number) ↔
      "TMS_A" ∈ idsWithStatus exOld .failed) :=
  ⟨by rfl,
   (comparator_self_comparison exOld exSelfRes (by decide) (by rfl) "TMS_A").1⟩

/-- C4 counterexample: with a contradictory pair of statuses for one
identifier on the new side, that identifier lands in both `still_failing`
and `fixed`, so the claimed `still_failing ∩ fixed = ∅` fails without a
well-formedness restriction. -/
theorem comparator_disjointness_counterexample :
    compare_reports cexOld cexNew = some cexRes ∧
    "TMS_1" ∈ cexRes.still_failing.map (fun r => r.tms_number) ∧
    "TMS_1" ∈ cexRes.fixed.map (fun r => r.tms_number) :=
  ⟨by rfl, by decide, by decide⟩

/-- C4 (amended): `fixed ∩ new_failures = ∅` and `new_passes ∩ fixed = ∅`
hold for all inputs; `still_failing ∩ fixed = ∅` holds when the new side
assigns a single status per identifier. -/
theorem comparator_bucket_disjointness (old new : List TestResult)
    (res : CompareResult) (h : compare_reports old new = some res) (x : String) :
    (x ∈ res.fixed.map (fun r => r.tms_number) →
      x ∉ res.new_failures.map (fun r => r.tms_number)) ∧
    (x ∈ res.new_passes.map (fun r => r.tms_number) →
      x ∉ res.fixed.map (fun r => r.tms_number)) ∧
    ((∀ r ∈ new, ∀ r' ∈ new, r.tms_number = r'.tms_number → r.status = r'.status) →
      x ∈ res.still_failing.map (fun r => r.tms_number) →
      x ∉ res.fixed.map (fun r => r.tms_number)) := by
  obtain ⟨hb1, hb2, hb3, hb4, hb5, hb6, hb7⟩ :=
    bucket_ids_algebra old new res h x
  refine ⟨?_, ?_, ?_⟩
  · intro hfix hnf
    exact ((hb1.mp hnf).2.1) ((hb2.mp hfix).1)
  · intro hnp hfix
    exact ((hb7.mp hnp).2.2.1) ((hb2.mp hfix).1)
  · intro hss hsf hfix
    obtain ⟨-, hfailed⟩ := hb3.mp hsf
    obtain ⟨-, hpassed⟩ := hb2.mp hfix
    obtain ⟨r, hr, hrs, hrx⟩ := mem_idsWithStatus.mp hfailed
    obtain ⟨r', hr', hrs', hrx'⟩ := mem_idsWithStatus.mp hpassed
    have : r.status = r'.status := hss r hr r' hr' (by rw [hrx, hrx'])
    rw [hrs, hrs'] at this
    exact absurd this (by decide)

/-- C4 witness: at the spec §8 example, TMS_A is in `fixed` and hence not in
`new_failures`. -/
theorem comparator_bucket_disjointness_witness :
    "TMS_A" ∉ exRes.new_failures.map (fun r => r.tms_number) :=
  (comparator_bucket_disjointness exOld exNew exRes (by rfl) "TMS_A").1 (by decide)

/-- C7: `compare_reports` never raises: every new-side dict lookup succeeds
on every input, and two empty inputs give seven empty buckets. -/
theorem comparator_never_raises (old new : List TestResult) :
    (compare_reports old new).isSome = true ∧
    compare_reports [] [] = some ⟨[], [], [], [], [], [], []⟩ := by
  obtain ⟨res, h', -⟩ := compare_spec old new
  exact ⟨by rw [h']; rfl, by rfl⟩

/-- C8: every bucket is sorted in strictly ascending lexicographic order of
identifier, and each record in it is exactly the record the new-side lookup
dict maps that identifier to. -/
theorem comparator_buckets_sorted_new_side (old new : List TestResult)
    (res : CompareResult) (h : compare_reports old new = some res) :
    bucketOk new res.new_failures ∧ bucketOk new res.fixed ∧
    bucketOk new res.still_failing ∧ bucketOk new res.new_errors ∧
    bucketOk new res.fixed_errors ∧ bucketOk new res.still_erroring ∧
    bucketOk new res.new_passes := by
  obtain ⟨res', h', hm1, hm2, hm3, hm4, hm5, hm6, hm7,
    hk1, hk2, hk3, hk4, hk5, hk6, hk7⟩ := compare_spec old new
  rw [h'] at h
  obtain rfl : res' = res := Option.some.inj h
  refine ⟨⟨?_, hk1⟩, ⟨?_, hk2⟩, ⟨?_, hk3⟩, ⟨?_, hk4⟩, ⟨?_, hk5⟩, ⟨?_, hk6⟩, ⟨?_, hk7⟩⟩
  · rw [hm1]; exact sortIds_sorted_lex (new_failure_tms_nodup old new)
  · rw [hm2]; exact sortIds_sorted_lex (fixed_tms_nodup old new)
  · rw [hm3]; exact sortIds_sorted_lex (still_failing_tms_nodup old new)
  · rw [hm4]; exact sortIds_sorted_lex (new_error_tms_nodup old new)
  · rw [hm5]; exact sortIds_sorted_lex (fixed_error_tms_nodup old new)
  · rw [hm6]; exact sortIds_sorted_lex (still_erroring_tms_nodup old new)
  · rw [hm7]; exact sortIds_sorted_lex (new_pass_tms_nodup old new)

/-- C8 witness: the spec §8 example's `new_failures` bucket. -/
theorem comparator_buckets_sorted_new_side_witness :
    bucketOk exNew exRes.new_failures :=
  (comparator_buckets_sorted_new_side exOld exNew exRes (by rfl)).1

/-- C10: selecting a record resets the search state: empty query, empty match
list, unset pointer, and an immediately following `next_match`/`prev_match`
is a no-op reporting no movement. -/
theorem show_test_resets_search (p : Panel) (r : TestResult) :
    (showTest p r).search_query = "" ∧
    (showTest p r).search_matches = [] ∧
    (showTest p r).current_match = -1 ∧
    nextMatch (showTest p r) = (showTest p r, false) ∧
    prevMatch (showTest p r) = (showTest p r, false) :=
  ⟨rfl, rfl, rfl, rfl, rfl⟩

/-- C6: with `n ≥ 1` matches, `next_match`/`prev_match` move the pointer by
±1 modulo `n` (wrapping at both ends, with Python's nonnegative `%`), report
movement, and scroll to the new current match's line; with no matches both
are no-ops reporting no movement. -/
theorem match_cycling (p : Panel) :
    (p.search_matches = [] →
      nextMatch p = (p, false) ∧ prevMatch p = (p, false)) ∧
    (p.search_matches ≠ [] →
      nextMatch p =
        ({ p with
            current_match := (p.current_match + 1) % (p.search_matches.length : Int),
            scroll_y := p.search_matches.getD
              ((p.current_match + 1) % (p.search_matches.length : Int)).toNat 0 }, true) ∧
      prevMatch p =
        ({ p with
            current_match := (p.current_match - 1) % (p.search_matches.length : Int),
            scroll_y := p.search_matches.getD
              ((p.current_match - 1) % (p.search_matches.length : Int)).toNat 0 }, true)) := by
  constructor
  · intro h
    simp [nextMatch, prevMatch, h]
  · intro h
    have hne : p.search_matches.isEmpty = false := by
      cases hm : p.search_matches with
      | nil => exact absurd hm h
      | cons a t => rfl
    have hlen : (0 : Int) < (p.search_matches.length : Int) := by
      cases hm : p.search_matches with
      | nil => exact absurd hm h
      | cons a t => simp
    constructor
    · rw [nextMatch, hne]
      simp only [Bool.false_eq_true, if_false, scrollToMatch]
      rw [if_pos ⟨Int.emod_nonneg _ (by omega), Int.emod_lt_of_pos _ hlen⟩]
    · rw [prevMatch, hne]
      simp only [Bool.false_eq_true, if_false, scrollToMatch]
      rw [if_pos ⟨Int.emod_nonneg _ (by omega), Int.emod_lt_of_pos _ hlen⟩]

/-- C6 witness: advancing from the first of two matches. -/
theorem match_cycling_witness :
    nextMatch wPanel =
      ({ wPanel with
          current_match := (wPanel.current_match + 1) % (wPanel.search_matches.length : Int),
          scroll_y := wPanel.search_matches.getD
            ((wPanel.current_match + 1) % (wPanel.search_matches.length : Int)).toNat 0 },
        true) :=
  ((match_cycling wPanel).2 (by decide)).1

theorem mem_dictInsert {d : List (String × RText)} {k : String} {v : RText}
    {kv : String × RText} (h : kv ∈ dictInsert d k v) : kv ∈ d ∨ kv.2 = v := by
  rw [dictInsert] at h
  split at h
  · rcases List.mem_map.mp h with ⟨kv', hkv', hEq⟩
    by_cases hk : kv'.1 == k
    · right
      rw [if_pos hk] at hEq
      rw [← hEq]
    · left
      rw [if_neg hk] at hEq
      exact hEq ▸ hkv'
  · rcases List.mem_append.mp h with h' | h'
    · exact Or.inl h'
    · right
      rcases List.mem_singleton.mp h' with rfl
      rfl

theorem mem_dictDelete {d : List (String × RText)} {k : String}
    {kv : String × RText} (h : kv ∈ dictDelete d k) : kv ∈ d :=
  (List.mem_filter.mp h).1

theorem dictInsert_length (d : List (String × RText)) (k : String) (v : RText) :
    (dictInsert d k v).length ≤ d.length + 1 := by
  rw [dictInsert]
  split
  · rw [List.length_map]
    omega
  · rw [List.length_append]
    simp

theorem dictDelete_length (d : List (String × RText)) (k : String) :
    (dictDelete d k).length ≤ d.length :=
  List.length_filter_le _ _

/-- Where `show_test` can leave the cache. -/
theorem showTest_cache (p : Panel) (r : TestResult) :
    (showTest p r).content_cache = p.content_cache ∨
    ((showTest p r).content_cache =
      dictInsert p.content_cache r.tms_number (buildDetailContent r) ∧
      p.content_cache.length < 100) := by
  rw [showTest]
  rcases hg : dictGet p.content_cache r.tms_number with - | c
  · by_cases hlen : p.content_cache.length < 100
    · right
      simp only [hg, if_pos hlen]
      exact ⟨trivial, hlen⟩
    · left
      simp only [hg, if_neg hlen]
  · left
    simp only [hg]

/-- Where `search_log` can leave the cache. -/
theorem searchLog_cache (p : Panel) (q : String) :
    (searchLog p q).1.content_cache = p.content_cache ∨
    (∃ r, p.current_test = some r ∧
      (searchLog p q).1.content_cache =
        dictInsert (dictDelete p.content_cache r.tms_number) r.tms_number
          (buildDetailContent r)) ∨
    (∃ r, p.current_test = some r ∧
      (searchLog p q).1.content_cache = dictDelete p.content_cache r.tms_number) := by
  rcases hc : p.current_test with - | r
  · left
    rw [searchLog]
    simp only [hc]
    split
    · rfl
    · split
      · rfl
      · rfl
  · rw [searchLog]
    simp only [hc]
    split
    · right
      left
      exact ⟨r, rfl, rfl⟩
    · right
      right
      refine ⟨r, rfl, ?_⟩
      split
      · rfl
      · rfl

theorem searchLog_cache_length (p : Panel) (q : String) :
    (searchLog p q).1.content_cache.length ≤ p.content_cache.length + 1 := by
  rcases searchLog_cache p q with h | ⟨r, -, h⟩ | ⟨r, -, h⟩
  · rw [h]
    omega
  · rw [h]
    have h1 := dictInsert_length (dictDelete p.content_cache r.tms_number)
      r.tms_number (buildDetailContent r)
    have h2 := dictDelete_length p.content_cache r.tms_number
    omega
  · rw [h]
    have h2 := dictDelete_length p.content_cache r.tms_number
    omega

theorem showTest_cache_length (p : Panel) (r : TestResult) :
    (showTest p r).content_cache.length ≤ max p.content_cache.length 100 := by
  rcases showTest_cache p r with h | ⟨h, hlen⟩
  · rw [h]
    exact le_max_left _ _
  · rw [h]
    have h1 := dictInsert_length p.content_cache r.tms_number (buildDetailContent r)
    exact le_max_of_le_right (by omega)

theorem applyOps_cache_length : ∀ (ops : List PanelOp) (p : Panel),
    (applyOps p ops).content_cache.length ≤
      max p.content_cache.length 100 + (ops.filter isSearchOp).length
  | [], p => le_max_left _ _
  | op :: rest, p => by
    have ih := applyOps_cache_length rest (applyOp p op)
    have hops : applyOps p (op :: rest) = applyOps (applyOp p op) rest := rfl
    rw [hops]
    cases op
    next r =>
      have h1 : max (applyOp p (.show r)).content_cache.length 100 ≤
          max p.content_cache.length 100 :=
        max_le (showTest_cache_length p r) (le_max_right _ _)
      have h2 : ((PanelOp.show r :: rest).filter isSearchOp).length =
          (rest.filter isSearchOp).length := by
        simp [isSearchOp]
      rw [h2]
      exact le_trans ih (Nat.add_le_add_right h1 _)
    next q =>
      have h1 : (applyOp p (.search q)).content_cache.length ≤
          p.content_cache.length + 1 :=
        searchLog_cache_length p q
      have h2 : ((PanelOp.search q :: rest).filter isSearchOp).length =
          (rest.filter isSearchOp).length + 1 := by
        simp [isSearchOp]
      have h3 : max (applyOp p (.search q)).content_cache.length 100 ≤
          max p.content_cache.length 100 + 1 :=
        max_le (le_trans h1 (Nat.add_le_add_right (le_max_left _ _) 1))
          (le_trans (le_max_right _ _) (Nat.le_succ _))
      rw [h2]
      refine le_trans ih (le_trans (Nat.add_le_add_right h3 _) (le_of_eq ?_))
      ring

theorem applyOp_unhighlighted {p : Panel} (h : cacheUnhighlighted p) (op : PanelOp) :
    cacheUnhighlighted (applyOp p op) := by
  cases op
  next r =>
    intro kv hkv
    rcases showTest_cache p r with hcc | ⟨hcc, -⟩
    · exact h kv (hcc ▸ hkv)
    · rw [show applyOp p (.show r) = showTest p r from rfl, hcc] at hkv
      rcases mem_dictInsert hkv with h' | h'
      · exact h kv h'
      · exact ⟨r, h'⟩
  next q =>
    intro kv hkv
    rcases searchLog_cache p q with hcc | ⟨r, -, hcc⟩ | ⟨r, -, hcc⟩
    · exact h kv (hcc ▸ hkv)
    · rw [show applyOp p (.search q) = (searchLog p q).1 from rfl, hcc] at hkv
      rcases mem_dictInsert hkv with h' | h'
      · exact h kv (mem_dictDelete h')
      · exact ⟨r, h'⟩
    · rw [show applyOp p (.search q) = (searchLog p q).1 from rfl, hcc] at hkv
      exact h kv (mem_dictDelete hkv)

theorem applyOps_unhighlighted : ∀ (ops : List PanelOp) (p : Panel),
    cacheUnhighlighted p → cacheUnhighlighted (applyOps p ops)
  | [], _, h => h
  | op :: rest, p, h =>
    applyOps_unhighlighted rest (applyOp p op) (applyOp_unhighlighted h op)

theorem isEmpty_false_of_ne {s : String} (h : s ≠ "") : s.isEmpty = false := by
  cases hb : s.isEmpty
  · rfl
  · exact absurd ((String.isEmpty_iff s).mp hb) h

/-- The non-rebuild branch of `search_log` (nonempty query, nonempty log)
never inserts into the cache. -/
theorem searchLog_main_cache (p : Panel) (q : String) (hq : q.isEmpty = false)
    (hlog : p.raw_log.isEmpty = false) :
    (searchLog p q).1.content_cache = p.content_cache ∨
    ∃ r, p.current_test = some r ∧
      (searchLog p q).1.content_cache = dictDelete p.content_cache r.tms_number := by
  rcases hc : p.current_test with - | r
  · left
    rw [searchLog]
    simp only [hc, hq, hlog]
    split
    · next hcond => exact absurd hcond (by decide)
    · split
      · rfl
      · rfl
  · right
    refine ⟨r, rfl, ?_⟩
    rw [searchLog]
    simp only [hc, hq, hlog]
    split
    · next hcond => exact absurd hcond (by decide)
    · split
      · rfl
      · rfl

/-- C5 (amended): every cached value is an unhighlighted rendering;
`show_test` inserts only below the 100-entry bound; a search with a nonempty
query over a nonempty log never inserts; but the rebuild branch of
`search_log` (empty query or absent log) re-caches unconditionally, so the
cache size is only bounded by 100 plus the number of search operations. -/
theorem render_cache_policy (ops : List PanelOp) (p : Panel) (r : TestResult)
    (q : String) :
    (∀ kv ∈ (applyOps initPanel ops).content_cache, ∃ r', kv.2 = buildDetailContent r') ∧
    (applyOps initPanel ops).content_cache.length ≤ 100 + (ops.filter isSearchOp).length ∧
    (showTest p r).content_cache.length ≤ max p.content_cache.length 100 ∧
    (q ≠ "" → p.raw_log ≠ "" →
      (searchLog p q).1.content_cache.length ≤ p.content_cache.length) := by
  refine ⟨applyOps_unhighlighted ops initPanel ?_, ?_, showTest_cache_length p r, ?_⟩
  · intro kv hkv
    exact absurd hkv (List.not_mem_nil kv)
  · have h := applyOps_cache_length ops initPanel
    have hinit : max initPanel.content_cache.length 100 = 100 := rfl
    rw [hinit] at h
    exact h
  · intro hq hlog
    rcases searchLog_main_cache p q (isEmpty_false_of_ne hq) (isEmpty_false_of_ne hlog)
      with h | ⟨r', -, h⟩
    · rw [h]
    · rw [h]
      exact dictDelete_length _ _

/-- C5 witness: the fill-level bound at the empty operation sequence, and a
non-inserting search on a shown record with a log. -/
theorem render_cache_policy_witness :
    (applyOps initPanel []).content_cache.length ≤
      100 + (List.filter isSearchOp []).length ∧
    (searchLog (showTest initPanel logRec) "zqz").1.content_cache.length ≤
      (showTest initPanel logRec).content_cache.length :=
  ⟨(render_cache_policy [] initPanel logRec "zqz").2.1,
   (render_cache_policy [] (showTest initPanel logRec) logRec "zqz").2.2.2
     (by decide) (by decide)⟩

set_option maxRecDepth 10000 in
/-- C5 counterexample: after this operation sequence the cache holds 101
entries, so it is not bounded by 100. -/
theorem render_cache_policy_counterexample :
    (applyOps initPanel cacheCexOps).content_cache.length = 101 ∧
    ¬ (applyOps initPanel cacheCexOps).content_cache.length ≤ 100 := by
  have h : (applyOps initPanel cacheCexOps).content_cache.length = 101 := by rfl
  exact ⟨h, by omega⟩

theorem matchPositions_pairwise (hay needle : List Char) :
    (matchPositions hay needle).Pairwise (· < ·) :=
  (List.pairwise_lt_range _).filter _

theorem mem_matchPositions {hay needle : List Char} {i : Nat} :
    i ∈ matchPositions hay needle ↔
      i < hay.length ∧ needle.isPrefixOf (hay.drop i) = true := by
  rw [matchPositions, List.mem_filter, List.mem_range]

theorem lt_length_of_matchAt {hay needle : List Char} {i : Nat} (hne : needle ≠ [])
    (h : needle.isPrefixOf (hay.drop i) = true) : i < hay.length := by
  by_contra hge
  rw [List.drop_eq_nil_of_le (by omega)] at h
  cases needle with
  | nil => exact hne rfl
  | cons c cs => cases h

theorem findSub_some {needle : List Char} : ∀ {hay : List Char} {idx : Nat},
    findSub needle hay = some idx →
      needle.isPrefixOf (hay.drop idx) = true ∧
        ∀ j < idx, needle.isPrefixOf (hay.drop j) = false := by
  intro hay
  induction hay with
  | nil =>
    intro idx h
    rw [findSub] at h
    split at h
    · obtain rfl : 0 = idx := Option.some.inj h
      refine ⟨by assumption, ?_⟩
      intro j hj
      omega
    · cases h
  | cons c t ih =>
    intro idx h
    rw [findSub] at h
    split at h
    · obtain rfl : 0 = idx := Option.some.inj h
      refine ⟨by assumption, ?_⟩
      intro j hj
      omega
    · next hnp =>
      obtain ⟨i, hi, rfl⟩ := Option.map_eq_some'.mp h
      obtain ⟨hpre, hmin⟩ := ih hi
      refine ⟨by simpa using hpre, ?_⟩
      intro j hj
      cases j with
      | zero =>
        simpa using Bool.not_eq_true _ ▸ (by simpa using hnp)
      | succ k =>
        have := hmin k (by omega)
        simpa using this

theorem findSub_none {needle : List Char} : ∀ {hay : List Char},
    findSub needle hay = none →
      ∀ j, needle.isPrefixOf (hay.drop j) = false := by
  intro hay
  induction hay with
  | nil =>
    intro h j
    rw [findSub] at h
    split at h
    · cases h
    · next hnp =>
      rw [List.drop_nil]
      simpa using Bool.not_eq_true _ ▸ (by simpa using hnp)
  | cons c t ih =>
    intro h j
    rw [findSub] at h
    split at h
    · cases h
    · next hnp =>
      cases j with
      | zero =>
        simpa using Bool.not_eq_true _ ▸ (by simpa using hnp)
      | succ k =>
        have := ih (Option.map_eq_none'.mp h) k
        simpa using this

theorem findFrom_some {hay needle : List Char} {start idx : Nat}
    (h : findFrom hay needle start = some idx) :
    start ≤ idx ∧ needle.isPrefixOf (hay.drop idx) = true ∧
      ∀ j, start ≤ j → j < idx → needle.isPrefixOf (hay.drop j) = false := by
  rw [findFrom] at h
  obtain ⟨i, hi, rfl⟩ := Option.map_eq_some'.mp h
  obtain ⟨hpre, hmin⟩ := findSub_some hi
  rw [List.drop_drop, Nat.add_comm start i] at hpre
  refine ⟨by omega, hpre, ?_⟩
  intro j hsj hj
  have hk := hmin (j - start) (by omega)
  rw [List.drop_drop] at hk
  have hjs : start + (j - start) = j := by omega
  rw [hjs] at hk
  exact hk

theorem findFrom_none {hay needle : List Char} {start : Nat}
    (h : findFrom hay needle start = none) :
    ∀ j, start ≤ j → needle.isPrefixOf (hay.drop j) = false := by
  rw [findFrom] at h
  have h' := findSub_none (Option.map_eq_none'.mp h)
  intro j hj
  have hk := h' (j - start)
  rw [List.drop_drop] at hk
  have hjs : start + (j - start) = j := by omega
  rw [hjs] at hk
  exact hk

/-- Splitting a `<`-sorted list at its least element `≥ pos`. -/
theorem filter_le_eq_cons {l : List Nat} (hps : l.Pairwise (· < ·)) {pos idx : Nat}
    (hidx : idx ∈ l) (hpos : pos ≤ idx) (hmin : ∀ j ∈ l, pos ≤ j → idx ≤ j) :
    l.filter (fun i => decide (pos ≤ i)) =
      idx :: l.filter (fun i => decide (idx + 1 ≤ i)) := by
  induction l with
  | nil => exact absurd hidx (List.not_mem_nil idx)
  | cons a t ih =>
    obtain ⟨ha, hpt⟩ := List.pairwise_cons.mp hps
    by_cases hpa : pos ≤ a
    · have haidx : idx = a := by
        have h1 : idx ≤ a := hmin a (List.mem_cons_self a t) hpa
        rcases List.mem_cons.mp hidx with rfl | hidxt
        · rfl
        · exact absurd (ha idx hidxt) (by omega)
      subst haidx
      rw [List.filter_cons_of_pos (by simpa using hpa),
        List.filter_cons_of_neg (by simp)]
      congr 1
      refine List.filter_congr ?_
      intro j hj
      have hij := ha j hj
      have h1 : pos ≤ j := by omega
      have h2 : idx + 1 ≤ j := by omega
      simp [h1, h2]
    · have hidxt : idx ∈ t := by
        rcases List.mem_cons.mp hidx with rfl | h'
        · exact absurd hpos hpa
        · exact h'
      rw [List.filter_cons_of_neg (by simpa using hpa),
        List.filter_cons_of_neg (by simp; omega)]
      exact ih hpt hidxt (fun j hj hpj => hmin j (List.mem_cons_of_mem a hj) hpj)

theorem occurrencesFrom_eq {hay needle : List Char} (hne : needle ≠ []) :
    ∀ (fuel pos : Nat), hay.length + 1 - pos ≤ fuel →
      occurrencesFrom hay needle fuel pos =
        (matchPositions hay needle).filter (fun i => decide (pos ≤ i))
  | 0, pos, hfuel => by
    have h0 : occurrencesFrom hay needle 0 pos = [] := rfl
    rw [h0]
    symm
    rw [List.filter_eq_nil_iff]
    intro i hi
    have hlt := (mem_matchPositions.mp hi).1
    simp only [decide_eq_true_eq]
    omega
  | fuel + 1, pos, hfuel => by
    rw [occurrencesFrom]
    cases hf : findFrom hay needle pos with
    | none =>
      have hnone := findFrom_none hf
      symm
      rw [List.filter_eq_nil_iff]
      intro i hi
      obtain ⟨-, hpre⟩ := mem_matchPositions.mp hi
      simp only [decide_eq_true_eq]
      intro hpi
      rw [hnone i hpi] at hpre
      cases hpre
    | some idx =>
      obtain ⟨hle, hpre, hmin⟩ := findFrom_some hf
      have hidxlen : idx < hay.length := lt_length_of_matchAt hne hpre
      have hmem : idx ∈ matchPositions hay needle :=
        mem_matchPositions.mpr ⟨hidxlen, hpre⟩
      have hminall : ∀ j ∈ matchPositions hay needle, pos ≤ j → idx ≤ j := by
        intro j hj hpj
        by_contra hlt
        have hfalse := hmin j hpj (by omega)
        have htrue := (mem_matchPositions.mp hj).2
        rw [hfalse] at htrue
        cases htrue
      show idx :: occurrencesFrom hay needle fuel (idx + 1) =
        List.filter (fun i => decide (pos ≤ i)) (matchPositions hay needle)
      rw [occurrencesFrom_eq hne fuel (idx + 1) (by omega)]
      exact (filter_le_eq_cons (matchPositions_pairwise hay needle) hmem hle hminall).symm

theorem occurrences_eq {hay needle : List Char} (hne : needle ≠ []) :
    occurrences hay needle = matchPositions hay needle := by
  rw [occurrences, occurrencesFrom_eq hne (hay.length + 1) 0 (by omega)]
  refine List.filter_eq_self.mpr ?_
  intro i _
  simp

theorem lineOf_mono {hay : List Char} {i j : Nat} (h : i ≤ j) :
    lineOf hay i ≤ lineOf hay j := by
  rw [lineOf, lineOf]
  have heq : hay.take i = (hay.take j).take i := by
    rw [List.take_take]
    rw [Nat.min_eq_left h]
  rw [heq]
  exact (List.take_sublist i (hay.take j)).count_le '\n'

/-- Closed form of the non-rebuild branch of `search_log`. -/
theorem searchLog_main (p : Panel) (q : String) (r : TestResult)
    (hq : q.isEmpty = false) (hlog : p.raw_log.isEmpty = false)
    (hcur : p.current_test = some r) :
    searchLog p q =
      if (searchedPanel p q r).search_matches.isEmpty then (searchedPanel p q r, 0)
      else ({ searchedPanel p q r with
                current_match := 0,
                scroll_y := (searchedPanel p q r).search_matches.headD 0 },
            (searchedPanel p q r).search_matches.length) := by
  rw [searchLog]
  simp only [hcur, hq, hlog]
  split
  · next hcond => exact absurd hcond (by decide)
  · rfl

theorem lowerChars_ne_nil {q : String} (hq : q ≠ "") : lowerChars q.data ≠ [] := by
  intro h0
  apply hq
  apply string_data_inj
  have := congrArg List.length h0
  rw [lowerChars, List.length_map] at this
  exact List.length_eq_zero.mp this

/-- C2 (amended): with a record selected, a nonempty query and a nonempty
log, `search_log` reports as the match count the number of positions at
which the query occurs case-insensitively in the plain text of the rebuilt
(highlighted) rendering — so one line can contribute several counts, and
header text above the log participates — stores those positions' view line
numbers as the match list in nondecreasing order, updates the view to the
highlighted rendering, and puts the pointer on the first match when there is
one (leaving it unset otherwise). -/
theorem search_log_spec (p : Panel) (q : String) (r : TestResult)
    (hq : q ≠ "") (hlog : p.raw_log ≠ "") (hcur : p.current_test = some r) :
    (searchLog p q).2 =
      (matchPositions (lowerChars (buildDetailContent r q).plain.data)
        (lowerChars q.data)).length ∧
    (searchLog p q).1.search_matches =
      (matchPositions (lowerChars (buildDetailContent r q).plain.data)
        (lowerChars q.data)).map (lineOf (buildDetailContent r q).plain.data) ∧
    (searchLog p q).1.search_matches.Sorted (· ≤ ·) ∧
    (searchLog p q).1.content = buildDetailContent r q ∧
    ((searchLog p q).1.search_matches ≠ [] →
      (searchLog p q).1.current_match = 0 ∧
      (searchLog p q).1.scroll_y = (searchLog p q).1.search_matches.headD 0) ∧
    ((searchLog p q).1.search_matches = [] → (searchLog p q).1.current_match = -1) := by
  have hocc : occurrences (lowerChars (buildDetailContent r q).plain.data)
      (lowerChars q.data) =
      matchPositions (lowerChars (buildDetailContent r q).plain.data)
        (lowerChars q.data) := occurrences_eq (lowerChars_ne_nil hq)
  have hmain := searchLog_main p q r (isEmpty_false_of_ne hq) (isEmpty_false_of_ne hlog) hcur
  have hsm : (searchedPanel p q r).search_matches =
      (matchPositions (lowerChars (buildDetailContent r q).plain.data)
        (lowerChars q.data)).map (lineOf (buildDetailContent r q).plain.data) := by
    show (occurrences (lowerChars (buildDetailContent r q).plain.data)
      (lowerChars q.data)).map (lineOf (buildDetailContent r q).plain.data) = _
    rw [hocc]
  have hsorted : ((searchedPanel p q r).search_matches).Sorted (· ≤ ·) := by
    rw [hsm]
    exact List.Pairwise.map _ (fun a b hab => lineOf_mono (le_of_lt hab))
      (matchPositions_pairwise _ _)
  rw [hmain]
  split
  · next hms =>
    have hnil : (searchedPanel p q r).search_matches = [] := List.isEmpty_iff.mp hms
    have hmp : matchPositions (lowerChars (buildDetailContent r q).plain.data)
        (lowerChars q.data) = [] := by
      have h' := hnil
      rw [hsm] at h'
      exact List.map_eq_nil_iff.mp h'
    refine ⟨?_, ?_, hsorted, rfl, ?_, ?_⟩
    · show (0 : Nat) = _
      rw [hmp]
      rfl
    · show (searchedPanel p q r).search_matches = _
      rw [hnil, hmp]
      rfl
    · intro h
      exact absurd hnil h
    · intro _
      rfl
  · next hms =>
    refine ⟨?_, ?_, hsorted, rfl, ?_, ?_⟩
    · show ((searchedPanel p q r).search_matches).length = _
      rw [hsm, List.length_map]
    · exact hsm
    · intro _
      exact ⟨rfl, rfl⟩
    · intro h
      exact absurd (List.isEmpty_iff.mpr h) hms

/-- C2 counterexample: the log `"zqz zqz"` holds the query twice on its one
line; the code reports 2 matches, the claim's per-line count is 1. -/
theorem search_log_counterexample :
    (searchLog (showTest initPanel logRec) "zqz").2 = 2 ∧
    (searchLog (showTest initPanel logRec) "zqz").1.search_matches = [7, 7] ∧
    rawLinesContaining (logRec.execution_log.getD "") "zqz" = 1 ∧
    (2 : Nat) ≠ 1 :=
  ⟨by rfl, by rfl, by rfl, by decide⟩

/-- C2 witness: the amended count at a concrete search. -/
theorem search_log_spec_witness :
    (searchLog (showTest initPanel logRec) "zqz").2 =
      (matchPositions (lowerChars (buildDetailContent logRec "zqz").plain.data)
        (lowerChars "zqz".data)).length :=
  (search_log_spec (showTest initPanel logRec) "zqz" logRec (by decide) (by decide) rfl).1

/-- The `findSub` against the occurrence list: absent, or the least position. -/
theorem findSub_characterize {needle hay : List Char} (hne : needle ≠ []) :
    (findSub needle hay = none ∧ matchPositions hay needle = []) ∨
    (∃ idx t, findSub needle hay = some idx ∧
      matchPositions hay needle = idx :: t) := by
  cases hf : findSub needle hay with
  | none =>
    left
    refine ⟨rfl, List.filter_eq_nil_iff.mpr ?_⟩
    intro i _
    rw [findSub_none hf i]
    simp
  | some idx =>
    right
    obtain ⟨hpre, hmin⟩ := findSub_some hf
    have hmem : idx ∈ matchPositions hay needle :=
      mem_matchPositions.mpr ⟨lt_length_of_matchAt hne hpre, hpre⟩
    have hminall : ∀ j ∈ matchPositions hay needle, 0 ≤ j → idx ≤ j := by
      intro j hj _
      by_contra hlt
      have hfalse := hmin j (by omega)
      have htrue := (mem_matchPositions.mp hj).2
      rw [hfalse] at htrue
      cases htrue
    have h0 := filter_le_eq_cons (matchPositions_pairwise hay needle) hmem
      (Nat.zero_le idx) hminall
    have hall : (matchPositions hay needle).filter (fun i => decide (0 ≤ i)) =
        matchPositions hay needle := by
      refine List.filter_eq_self.mpr ?_
      intro a _
      simp
    exact ⟨idx, _, rfl, by rw [← hall, h0]⟩

theorem findLineInContent_none {p : Panel} {m : String}
    (h : findSub (lowerChars m.data) (lowerChars (RText.plain p.content).data) = none) :
    findLineInContent p m = -1 := by
  simp only [findLineInContent]
  rw [h]

theorem findLineInContent_some {p : Panel} {m : String} {idx : Nat}
    (h : findSub (lowerChars m.data) (lowerChars (RText.plain p.content).data) = some idx) :
    findLineInContent p m = Int.ofNat (lineOf (RText.plain p.content).data idx) := by
  simp only [findLineInContent]
  rw [h]

/-- The three ways `jump_to_section` can resolve over the two markers. -/
theorem jumpToSection_cases (p : Panel) (sect m1 m2 : String)
    (hm : sectionMarkers sect = [m1, m2]) :
    (findSub (lowerChars m1.data) (lowerChars (RText.plain p.content).data) = none →
      findSub (lowerChars m2.data) (lowerChars (RText.plain p.content).data) = none →
      jumpToSection p sect = (p, false)) ∧
    (∀ idx, findSub (lowerChars m1.data) (lowerChars (RText.plain p.content).data) = some idx →
      jumpToSection p sect =
        ({ p with scroll_y := lineOf (RText.plain p.content).data idx }, true)) ∧
    (findSub (lowerChars m1.data) (lowerChars (RText.plain p.content).data) = none →
      ∀ idx, findSub (lowerChars m2.data) (lowerChars (RText.plain p.content).data) = some idx →
      jumpToSection p sect =
        ({ p with scroll_y := lineOf (RText.plain p.content).data idx }, true)) := by
  refine ⟨?_, ?_, ?_⟩
  · intro h1 h2
    rw [jumpToSection, hm]
    simp only [List.findSome?_cons, List.findSome?_nil, findLineInContent_none h1,
      findLineInContent_none h2]
    rfl
  · intro idx h1
    rw [jumpToSection, hm]
    simp only [List.findSome?_cons, findLineInContent_some h1]
    rfl
  · intro h1 idx h2
    rw [jumpToSection, hm]
    simp only [List.findSome?_cons, findLineInContent_none h1, findLineInContent_some h2]
    rfl

/-- C9 (amended): `jump_to_section` reports found exactly when one of the two
markers for the section occurs case-insensitively in the rendered view's
plain text; it scrolls to the line of the first occurrence of the
`live log` marker when that marker occurs anywhere, and only otherwise to
the first occurrence of the `captured log` marker — so later occurrences of
the marker tried first never change the target, but an earlier
`captured log` header is ignored when a `live log` header exists. When
neither occurs, the panel is unchanged. -/
theorem jump_to_section_spec (p : Panel) (sect m1 m2 : String)
    (hm : sectionMarkers sect = [m1, m2]) (hm1 : m1 ≠ "") (hm2 : m2 ≠ "") :
    ((jumpToSection p sect).2 = true ↔
      matchPositions (lowerChars (RText.plain p.content).data) (lowerChars m1.data) ≠ [] ∨
      matchPositions (lowerChars (RText.plain p.content).data) (lowerChars m2.data) ≠ []) ∧
    (∀ i t, matchPositions (lowerChars (RText.plain p.content).data)
        (lowerChars m1.data) = i :: t →
      (jumpToSection p sect).1 =
        { p with scroll_y := lineOf (RText.plain p.content).data i }) ∧
    (matchPositions (lowerChars (RText.plain p.content).data) (lowerChars m1.data) = [] →
      ∀ i t, matchPositions (lowerChars (RText.plain p.content).data)
          (lowerChars m2.data) = i :: t →
        (jumpToSection p sect).1 =
          { p with scroll_y := lineOf (RText.plain p.content).data i }) ∧
    ((jumpToSection p sect).2 = false → (jumpToSection p sect).1 = p) := by
  obtain ⟨hcase0, hcase1, hcase2⟩ := jumpToSection_cases p sect m1 m2 hm
  rcases @findSub_characterize (lowerChars m1.data) (lowerChars (RText.plain p.content).data)
      (lowerChars_ne_nil hm1) with ⟨hf1, hp1⟩ | ⟨idx1, t1, hf1, hp1⟩
  · rcases @findSub_characterize (lowerChars m2.data) (lowerChars (RText.plain p.content).data)
        (lowerChars_ne_nil hm2) with ⟨hf2, hp2⟩ | ⟨idx2, t2, hf2, hp2⟩
    · have hj := hcase0 hf1 hf2
      rw [hj]
      refine ⟨?_, ?_, ?_, ?_⟩
      · simp [hp1, hp2]
      · intro i t hit
        rw [hp1] at hit
        cases hit
      · intro _ i t hit
        rw [hp2] at hit
        cases hit
      · intro _
        rfl
    · have hj := hcase2 hf1 idx2 hf2
      rw [hj]
      refine ⟨?_, ?_, ?_, ?_⟩
      · simp [hp2]
      · intro i t hit
        rw [hp1] at hit
        cases hit
      · intro _ i t hit
        rw [hp2] at hit
        obtain ⟨rfl, -⟩ : idx2 = i ∧ t2 = t := by
          injection hit with h1 h2
          exact ⟨h1, h2⟩
        rfl
      · intro hfalse
        cases hfalse
  · have hj := hcase1 idx1 hf1
    rw [hj]
    refine ⟨?_, ?_, ?_, ?_⟩
    · simp [hp1]
    · intro i t hit
      rw [hp1] at hit
      obtain ⟨rfl, -⟩ : idx1 = i ∧ t1 = t := by
        injection hit with h1 h2
        exact ⟨h1, h2⟩
      rfl
    · intro hnil
      rw [hp1] at hnil
      cases hnil
    · intro hfalse
      cases hfalse

/-- C9 counterexample: the first call-section header in the rendered view is
the `captured log call` line (view line 7), but `jump_to_section` scrolls to
the later `live log call` line (view line 9), because the `live` marker is
tried first. -/
theorem jump_to_section_counterexample :
    (jumpToSection (showTest initPanel jumpRec) "call").2 = true ∧
    (jumpToSection (showTest initPanel jumpRec) "call").1.scroll_y = 9 ∧
    (matchPositions (lowerChars (RText.plain (showTest initPanel jumpRec).content).data)
      (lowerChars "captured log call".data)).map
        (lineOf (RText.plain (showTest initPanel jumpRec).content).data) = [7] ∧
    (matchPositions (lowerChars (RText.plain (showTest initPanel jumpRec).content).data)
      (lowerChars "live log call".data)).map
        (lineOf (RText.plain (showTest initPanel jumpRec).content).data) = [9] ∧
    (9 : Nat) ≠ 7 :=
  ⟨by rfl, by rfl, by rfl, by rfl, by decide⟩

set_option maxRecDepth 10000 in
/-- C9 witness: found-ness at the banner example, plus the example's facts:
call at view line 7, teardown at 9, setup not found. -/
theorem jump_to_section_spec_witness :
    ((jumpToSection (showTest initPanel bannerRec) "call").2 = true ↔
      matchPositions (lowerChars (RText.plain (showTest initPanel bannerRec).content).data)
        (lowerChars "live log call".data) ≠ [] ∨
      matchPositions (lowerChars (RText.plain (showTest initPanel bannerRec).content).data)
        (lowerChars "captured log call".data) ≠ []) ∧
    (jumpToSection (showTest initPanel bannerRec) "call").1.scroll_y = 7 ∧
    (jumpToSection (showTest initPanel bannerRec) "teardown").1.scroll_y = 9 ∧
    (jumpToSection (showTest initPanel bannerRec) "setup").2 = false :=
  ⟨(jump_to_section_spec (showTest initPanel bannerRec) "call" "live log call"
      "captured log call" rfl (by decide) (by decide)).1,
    by rfl, by rfl, by rfl⟩

end ReportMiner
